import Mathlib

/-!
Verification of the volume super-block header codec and lifecycle of
`weed/storage/volume_super_block.go`.

The super block is an 8-byte fixed region at offset 0 of a volume data
file (version, replica placement, TTL, compact revision, extension
length), optionally followed by a variable-length serialized extension.
We embed the encoder (`SuperBlock.Bytes`), the decoder
(`ReadSuperBlock`) and the lifecycle routine
(`Volume.maybeWriteSuperBlock`) as pure Lean functions; Go byte values
are `Nat` kept below 256, `uint16` values are `Nat` kept below 65536,
file contents and streams are `List Nat`, and fallible operations
return `Except String`.
-/

namespace SeaweedFS

/-- Modelled from the spec: `util.Uint16toBytes` writes a fixed-width
16-bit unsigned integer in big-endian order (high byte first). The
implementation lives in `weed/util`, outside the provided source; the
spec only requires a single consistent byte order shared by encode and
decode. -/
def Uint16toBytes (v : Nat) : Nat × Nat :=
  (v / 256 % 256, v % 256)

/-- Modelled from the spec: `util.BytesToUint16` reads the same
big-endian fixed-width 16-bit integer back. -/
def BytesToUint16 (a b : Nat) : Nat :=
  a * 256 + b

/-- Modelled from the spec: replica placement is an opaque policy value
encoded in exactly 1 byte; the source comment shows the patterns
"000, 001, 002, 010, etc", three decimal digits packed into a byte. The
codec itself lives in `weed/storage/replica_placement.go`, outside the
provided source. -/
structure ReplicaPlacement where
  SameRackCount : Nat
  DiffRackCount : Nat
  DiffDataCenterCount : Nat
deriving DecidableEq, Repr

/-- Modelled from the spec: the 1-byte encoding of a replica placement,
packing the three counts as the decimal digits of a byte. -/
def ReplicaPlacement.Byte (r : ReplicaPlacement) : Nat :=
  (r.DiffDataCenterCount * 100 + r.DiffRackCount * 10 + r.SameRackCount) % 256

/-- A replica placement value representable by the 1-byte codec: each
count is one of the recognized digits 0, 1, 2. -/
def ReplicaPlacement.valid (r : ReplicaPlacement) : Prop :=
  r.SameRackCount ≤ 2 ∧ r.DiffRackCount ≤ 2 ∧ r.DiffDataCenterCount ≤ 2

instance (r : ReplicaPlacement) : Decidable r.valid := by
  unfold ReplicaPlacement.valid; infer_instance

/-- Modelled from the spec: `NewReplicaPlacementFromByte` decodes the
three decimal digits of the byte, rejecting unrecognized patterns
(digits above 2) with an error. -/
def NewReplicaPlacementFromByte (b : Nat) : Except String ReplicaPlacement :=
  if b / 100 ≤ 2 ∧ b / 10 % 10 ≤ 2 ∧ b % 10 ≤ 2 then
    .ok ⟨b % 10, b / 10 % 10, b / 100⟩
  else
    .error "unknown replication type"

/-- Modelled from the spec: a time-to-live value is opaque and encoded
in exactly 2 bytes (a count byte and a unit byte); the codec lives in
`weed/storage/volume_ttl.go`, outside the provided source. -/
structure TTL where
  Count : Nat
  Unit : Nat
deriving DecidableEq, Repr

/-- Modelled from the spec: `Ttl.ToBytes` writes the 2-byte encoding. -/
def TTL.ToBytes (t : TTL) : Nat × Nat :=
  (t.Count % 256, t.Unit % 256)

/-- Modelled from the spec: `LoadTTLFromBytes` decodes the 2-byte
encoding; it never fails (malformed input yields a degenerate value). -/
def LoadTTLFromBytes (a b : Nat) : TTL :=
  ⟨a, b⟩

/-- Modelled from the spec: the extension-message codec
(`proto.Marshal` on `master_pb.SuperBlockExtra`) is consumed as an
opaque codec; we identify an extension message with its serialized byte
payload, so serialization is the identity on that payload. -/
def protoMarshal (m : List Nat) : List Nat := m

/-- Modelled from the spec: the matching opaque deserialization
(`proto.Unmarshal`), the inverse of `protoMarshal`. -/
def protoUnmarshal (b : List Nat) : Except String (List Nat) :=
  .ok b

/-- Modelled from the spec: recognized format versions are 1, 2, 3 and
the current (latest known) version, pinned when a fresh header is
written, is version 3. The constants live in `weed/storage/version.go`,
outside the provided source. -/
def Version1 : Nat := 1

def Version2 : Nat := 2

def Version3 : Nat := 3

def CurrentVersion : Nat := Version3

/-- `_SuperBlockSize`: the fixed region is 8 bytes. -/
def _SuperBlockSize : Nat := 8

/-- The in-memory super block (header) value, from
`volume_super_block.go`: version byte, replica placement, TTL, compact
revision counter (uint16), optional extension message and the cached
uint16 size of its serialization. -/
structure SuperBlock where
  version : Nat
  ReplicaPlacement : ReplicaPlacement
  Ttl : TTL
  CompactRevision : Nat
  Extra : Option (List Nat)
  extraSize : Nat
deriving DecidableEq, Repr

/-- `SuperBlock.BlockSize`: the total on-disk length implied by the
decoded header — 8 plus the cached extension size for versions 2 and 3,
plain 8 for any other version. -/
def SuperBlock.BlockSize (s : SuperBlock) : Nat :=
  if s.version = Version2 ∨ s.version = Version3 then
    _SuperBlockSize + s.extraSize
  else
    _SuperBlockSize

/-- Error text of the `glog.Fatalf` taken when the serialized extension
exceeds 65534 bytes. -/
def oversizeMsg (n : Nat) : String :=
  "super block extra size is " ++ toString n ++ " bigger than 65534"

/-- `SuperBlock.Bytes`: encode the header. Builds the 8-byte fixed
region (version byte, replica-placement byte, 2 TTL bytes, uint16
compact revision, bytes 6-7 left zero), then, when an extension is
present, serializes it, aborts (`glog.Fatalf`, modelled as
`Except.error`) when the serialization exceeds 256*256-2 = 65534 bytes,
stores the serialized size in the `extraSize` field (the Go method
mutates the receiver; we return the updated record), writes it into
bytes 6-7 and appends the serialized bytes. -/
def SuperBlock.Bytes (s : SuperBlock) : Except String (SuperBlock × List Nat) :=
  let t := s.Ttl.ToBytes
  let c := Uint16toBytes s.CompactRevision
  let header : List Nat :=
    [s.version % 256, s.ReplicaPlacement.Byte, t.1, t.2, c.1, c.2, 0, 0]
  match s.Extra with
  | none => .ok (s, header)
  | some extra =>
    let extraData := protoMarshal extra
    let extraSize := extraData.length
    if 256 * 256 - 2 < extraSize then
      .error (oversizeMsg extraSize)
    else
      let s' : SuperBlock := { s with extraSize := extraSize % 65536 }
      let e := Uint16toBytes s'.extraSize
      .ok (s', (header.set 6 e.1).set 7 e.2 ++ extraData)

/-- `ReadSuperBlock`: decode a header from the leading bytes of a data
file. Models Go `os.File` semantics: the seek to offset 0 always
succeeds, and a single `Read` into an 8-byte buffer returns up to 8
bytes, failing (`io.EOF`) only when no byte is available — with 1 to 7
bytes available it returns the partial data without error and the rest
of the buffer keeps its zero initialization. When the decoded
`extraSize` is positive the source allocates a zero buffer of that
length and unmarshals it WITHOUT reading the extension bytes from the
stream; the embedding reproduces that faithfully. -/
def ReadSuperBlock (data : List Nat) : Except String SuperBlock :=
  if data.isEmpty then
    .error "cannot read volume super block: EOF"
  else
    let header := data.take 8 ++ List.replicate (8 - data.length) 0
    match NewReplicaPlacementFromByte (header.getD 1 0) with
    | .error e => .error ("cannot read replica type: " ++ e)
    | .ok rp =>
      let version := header.getD 0 0
      let ttl := LoadTTLFromBytes (header.getD 2 0) (header.getD 3 0)
      let rev := BytesToUint16 (header.getD 4 0) (header.getD 5 0)
      let es := BytesToUint16 (header.getD 6 0) (header.getD 7 0)
      if 0 < es then
        let extraData := List.replicate es 0
        match protoUnmarshal extraData with
        | .error e => .error ("cannot read volume super block extra: " ++ e)
        | .ok extra => .ok ⟨version, rp, ttl, rev, some extra, es⟩
      else
        .ok ⟨version, rp, ttl, rev, none, es⟩

/-- A Go `error` value as observed by `maybeWriteSuperBlock`: its
message and whether `os.IsPermission` holds for it. -/
structure GoError where
  isPermission : Bool
  msg : String
deriving DecidableEq, Repr

/-- Fault environment for one `maybeWriteSuperBlock` call: the error
each file-system operation returns, `none` meaning success. Sizes are
taken from the actual file content, so only genuine faults are
injected. -/
structure Env where
  statErr : Option GoError
  write1Err : Option GoError
  createErr : Option GoError
  write2Err : Option GoError
deriving DecidableEq, Repr

/-- The volume state `maybeWriteSuperBlock` touches: its super block,
its read-only flag and the content of its data file. -/
structure Volume where
  SuperBlock : SuperBlock
  readOnly : Bool
  dataFileContent : List Nat
deriving DecidableEq, Repr

/-- `Volume.maybeWriteSuperBlock`: stat the data file (propagating a
stat error with no write); when the size is 0, pin the in-memory super
block's version to `CurrentVersion`, encode and write it. When that
first write fails with a permission error, recreate the file at the
same path (`os.Create` truncates; a create failure replaces the
propagated error) and retry the write once, clearing `readOnly` only
when the retry succeeds. The outer `Except.error` models the process
abort of a `glog.Fatalf` inside `Bytes`; the returned `Option GoError`
is the function's Go return value. -/
def Volume.maybeWriteSuperBlock (env : Env) (v : Volume) :
    Except String (Volume × Option GoError) :=
  match env.statErr with
  | some e => .ok (v, some e)
  | none =>
    if v.dataFileContent.length = 0 then
      let v1 : Volume :=
        { v with SuperBlock := { v.SuperBlock with version := CurrentVersion } }
      match v1.SuperBlock.Bytes with
      | .error msg => .error msg
      | .ok (sb1, bytes1) =>
        let v2 : Volume := { v1 with SuperBlock := sb1 }
        match env.write1Err with
        | none => .ok ({ v2 with dataFileContent := bytes1 }, none)
        | some e =>
          if e.isPermission then
            match env.createErr with
            | some e2 => .ok (v2, some e2)
            | none =>
              let v3 : Volume := { v2 with dataFileContent := [] }
              match v3.SuperBlock.Bytes with
              | .error msg => .error msg
              | .ok (sb2, bytes2) =>
                let v4 : Volume := { v3 with SuperBlock := sb2 }
                match env.write2Err with
                | none =>
                  .ok ({ v4 with dataFileContent := bytes2, readOnly := false },
                    none)
                | some e3 => .ok (v4, some e3)
          else
            .ok (v2, some e)
    else
      .ok (v, none)

end SeaweedFS

namespace SeaweedFS

/-- Encoding is stable: re-encoding the header returned by a successful
encode (which differs from the input only in the cached `extraSize`)
produces the same header and the same bytes. -/
theorem SuperBlock.Bytes_stable (s s' : SuperBlock) (out : List Nat)
    (h : s.Bytes = .ok (s', out)) : s'.Bytes = .ok (s', out) := by
  obtain ⟨ver, rp, ttl, rev, ex, es⟩ := s
  cases ex with
  | none =>
    simp only [SuperBlock.Bytes] at h
    rw [Except.ok.injEq, Prod.mk.injEq] at h
    obtain ⟨h1, h2⟩ := h
    subst h1; subst h2
    simp only [SuperBlock.Bytes]
  | some extra =>
    simp only [SuperBlock.Bytes] at h
    split at h
    · exact absurd h (by simp)
    · rw [Except.ok.injEq, Prod.mk.injEq] at h
      obtain ⟨h1, h2⟩ := h
      subst h1; subst h2
      simp only [SuperBlock.Bytes]
      split
      · next hlt => exact absurd hlt (by omega)
      · rfl

/-- A successful encode does not change the header's version field. -/
theorem SuperBlock.Bytes_version (s s' : SuperBlock) (out : List Nat)
    (h : s.Bytes = .ok (s', out)) : s'.version = s.version := by
  obtain ⟨ver, rp, ttl, rev, ex, es⟩ := s
  cases ex with
  | none =>
    simp only [SuperBlock.Bytes] at h
    rw [Except.ok.injEq, Prod.mk.injEq] at h
    obtain ⟨h1, _⟩ := h
    subst h1; rfl
  | some extra =>
    simp only [SuperBlock.Bytes] at h
    split at h
    · exact absurd h (by simp)
    · rw [Except.ok.injEq, Prod.mk.injEq] at h
      obtain ⟨h1, _⟩ := h
      subst h1; rfl

end SeaweedFS

namespace SeaweedFS

/-- C1: the round-trip claim fails on the code. Encoding the header
(version 2, replica placement 000, zero TTL, revision 0) whose
extension payload is `[1]` and decoding the produced bytes yields a
header whose extension is the zero buffer `[0]`, not `[1]`: the decoder
never reads the extension bytes it is owed from the stream, so
`Decode(Encode(h))` is not equal to `h` in the extension field. -/
theorem c1_roundtrip_fails_on_extension :
    SuperBlock.Bytes ⟨2, ⟨0, 0, 0⟩, ⟨0, 0⟩, 0, some [1], 0⟩ =
      .ok (⟨2, ⟨0, 0, 0⟩, ⟨0, 0⟩, 0, some [1], 1⟩, [2, 0, 0, 0, 0, 0, 0, 1, 1]) ∧
    ReadSuperBlock [2, 0, 0, 0, 0, 0, 0, 1, 1] =
      .ok ⟨2, ⟨0, 0, 0⟩, ⟨0, 0⟩, 0, some [0], 1⟩ ∧
    (some [0] : Option (List Nat)) ≠ some [1] :=
  ⟨rfl, rfl, by decide⟩

/-- C2: decoding the stream `[2,0,0,0,0,0,0,1,9]`, whose extensionLength
field is 1 and whose extension byte following the fixed region is `9`,
hands the zero-filled buffer `List.replicate 1 0` to the extension
codec instead of the stream byte `[9]`: the decoder performs no read of
the extensionLength bytes after the 8-byte fixed region. -/
theorem c2_decoder_ignores_stream_extension :
    ReadSuperBlock [2, 0, 0, 0, 0, 0, 0, 1, 9] =
      .ok ⟨2, ⟨0, 0, 0⟩, ⟨0, 0⟩, 0, some (List.replicate 1 0), 1⟩ ∧
    ([2, 0, 0, 0, 0, 0, 0, 1, 9] : List Nat).drop 8 = [9] ∧
    List.replicate 1 0 ≠ [9] :=
  ⟨rfl, rfl, by decide⟩

/-- C3 counterexample: a version-1 header with extension payload `[1]`
encodes to 9 bytes, not 8; `Bytes` appends the extension region for
every version, so the claimed version-1 exemption is false for the
encoder. -/
theorem c3_version1_extension_encodes_long :
    SuperBlock.Bytes ⟨1, ⟨0, 0, 0⟩, ⟨0, 0⟩, 0, some [1], 0⟩ =
      .ok (⟨1, ⟨0, 0, 0⟩, ⟨0, 0⟩, 0, some [1], 1⟩, [1, 0, 0, 0, 0, 0, 0, 1, 1]) ∧
    ([1, 0, 0, 0, 0, 0, 0, 1, 1] : List Nat).length ≠ 8 :=
  ⟨rfl, by decide⟩

/-- C3 (amended): the encoder's output length is exactly 8 when the
extension is absent and exactly 8 plus the serialized extension length
when it is present, for every version, version 1 included. -/
theorem c3_encoded_length (s s' : SuperBlock) (out : List Nat)
    (h : s.Bytes = .ok (s', out)) :
    out.length = s.Extra.elim 8 (fun ex => 8 + (protoMarshal ex).length) := by
  obtain ⟨ver, rp, ttl, rev, ex, es⟩ := s
  cases ex with
  | none =>
    simp only [SuperBlock.Bytes] at h
    rw [Except.ok.injEq, Prod.mk.injEq] at h
    obtain ⟨_, h2⟩ := h
    subst h2; rfl
  | some extra =>
    simp only [SuperBlock.Bytes] at h
    split at h
    · exact absurd h (by simp)
    · rw [Except.ok.injEq, Prod.mk.injEq] at h
      obtain ⟨_, h2⟩ := h
      subst h2
      simp only [Option.elim, protoMarshal, List.length_append, List.length_set]
      simp

/-- C3 witness: instantiating the amended length theorem at a version-2
header with extension payload `[1]` gives total length 9. -/
theorem c3_encoded_length_witness :
    ([2, 0, 0, 0, 0, 0, 0, 1, 1] : List Nat).length =
      (some [1] : Option (List Nat)).elim 8 (fun ex => 8 + (protoMarshal ex).length) :=
  c3_encoded_length ⟨2, ⟨0, 0, 0⟩, ⟨0, 0⟩, 0, some [1], 0⟩
    ⟨2, ⟨0, 0, 0⟩, ⟨0, 0⟩, 0, some [1], 1⟩ [2, 0, 0, 0, 0, 0, 0, 1, 1] rfl

/-- C4: fixed-region layout of every successful encode: byte 0 is the
version, byte 1 the replica-placement byte, bytes 2-3 the TTL bytes,
bytes 4-5 the big-endian compact revision, bytes 6-7 the big-endian
serialized extension length (zero when the extension is absent). -/
theorem c4_fixed_region_layout (s s' : SuperBlock) (out : List Nat)
    (h : s.Bytes = .ok (s', out)) :
    out.getD 0 0 = s.version % 256 ∧
    out.getD 1 0 = s.ReplicaPlacement.Byte ∧
    (out.getD 2 0, out.getD 3 0) = s.Ttl.ToBytes ∧
    (out.getD 4 0, out.getD 5 0) = Uint16toBytes s.CompactRevision ∧
    (out.getD 6 0, out.getD 7 0) =
      Uint16toBytes (s.Extra.elim 0 (fun ex => (protoMarshal ex).length)) := by
  obtain ⟨ver, rp, ttl, rev, ex, es⟩ := s
  cases ex with
  | none =>
    simp only [SuperBlock.Bytes] at h
    rw [Except.ok.injEq, Prod.mk.injEq] at h
    obtain ⟨_, h2⟩ := h
    subst h2
    refine ⟨rfl, rfl, rfl, rfl, ?_⟩
    simp [Uint16toBytes]
  | some extra =>
    simp only [SuperBlock.Bytes] at h
    split at h
    · exact absurd h (by simp)
    · next hle =>
      rw [Except.ok.injEq, Prod.mk.injEq] at h
      obtain ⟨_, h2⟩ := h
      subst h2
      have hlen : (protoMarshal extra).length % 65536 = (protoMarshal extra).length :=
        Nat.mod_eq_of_lt (by omega)
      refine ⟨rfl, rfl, rfl, rfl, ?_⟩
      simp only [protoMarshal] at hlen ⊢
      simp [Uint16toBytes, List.getD, hlen]

/-- C4 witness: the spec's concrete example — version 2, replica
placement byte 0, TTL bytes 0 0, compact revision 5, no extension —
encodes to the fixed region [2, 0, 0, 0, 0, 5, 0, 0]. -/
theorem c4_fixed_region_layout_witness :
    ([2, 0, 0, 0, 0, 5, 0, 0] : List Nat).getD 0 0 = 2 % 256 ∧
    ([2, 0, 0, 0, 0, 5, 0, 0] : List Nat).getD 1 0 =
      ReplicaPlacement.Byte ⟨0, 0, 0⟩ ∧
    (([2, 0, 0, 0, 0, 5, 0, 0] : List Nat).getD 2 0,
      ([2, 0, 0, 0, 0, 5, 0, 0] : List Nat).getD 3 0) = TTL.ToBytes ⟨0, 0⟩ ∧
    (([2, 0, 0, 0, 0, 5, 0, 0] : List Nat).getD 4 0,
      ([2, 0, 0, 0, 0, 5, 0, 0] : List Nat).getD 5 0) = Uint16toBytes 5 ∧
    (([2, 0, 0, 0, 0, 5, 0, 0] : List Nat).getD 6 0,
      ([2, 0, 0, 0, 0, 5, 0, 0] : List Nat).getD 7 0) =
      Uint16toBytes ((none : Option (List Nat)).elim 0
        (fun ex => (protoMarshal ex).length)) :=
  c4_fixed_region_layout ⟨2, ⟨0, 0, 0⟩, ⟨0, 0⟩, 5, none, 0⟩
    ⟨2, ⟨0, 0, 0⟩, ⟨0, 0⟩, 5, none, 0⟩ [2, 0, 0, 0, 0, 5, 0, 0] rfl

end SeaweedFS

namespace SeaweedFS

/-- C5: oversize boundary. For every header carrying an extension,
encoding succeeds exactly when the serialized extension is at most
65534 bytes; beyond that bound `Bytes` aborts with the distinct
oversize error and produces no bytes at all. -/
theorem c5_oversize_boundary (s : SuperBlock) (extra : List Nat)
    (h : s.Extra = some extra) :
    ((protoMarshal extra).length ≤ 65534 → (s.Bytes).isOk = true) ∧
    (65534 < (protoMarshal extra).length →
      s.Bytes = .error (oversizeMsg (protoMarshal extra).length)) := by
  obtain ⟨ver, rp, ttl, rev, ex, es⟩ := s
  simp only at h
  subst h
  constructor
  · intro hle
    simp only [SuperBlock.Bytes]
    split
    · next hlt => exact absurd hlt (by omega)
    · rfl
  · intro hgt
    simp only [SuperBlock.Bytes]
    split
    · rfl
    · next hlt => exact absurd hgt (by omega)

/-- C5 witness: a header with the one-byte extension `[1]` satisfies the
hypothesis and encodes successfully. -/
theorem c5_oversize_boundary_witness :
    (⟨2, ⟨0, 0, 0⟩, ⟨0, 0⟩, 0, some [1], 0⟩ : SuperBlock).Extra = some [1] ∧
    (SuperBlock.Bytes ⟨2, ⟨0, 0, 0⟩, ⟨0, 0⟩, 0, some [1], 0⟩).isOk = true :=
  ⟨rfl,
    (c5_oversize_boundary ⟨2, ⟨0, 0, 0⟩, ⟨0, 0⟩, 0, some [1], 0⟩ [1] rfl).1
      (by decide)⟩

/-- C6 counterexample: a header with no extension but a stale cached
`extraSize` of 7 encodes successfully, the output carries zeros in
bytes 6-7 (actual serialized extension length 0), yet the returned
header still caches 7 — the cache disagrees with the bytes produced. -/
theorem c6_stale_cache_survives_encode :
    SuperBlock.Bytes ⟨2, ⟨0, 0, 0⟩, ⟨0, 0⟩, 0, none, 7⟩ =
      .ok (⟨2, ⟨0, 0, 0⟩, ⟨0, 0⟩, 0, none, 7⟩, [2, 0, 0, 0, 0, 0, 0, 0]) ∧
    (⟨2, ⟨0, 0, 0⟩, ⟨0, 0⟩, 0, none, 7⟩ : SuperBlock).extraSize = 7 ∧
    ([2, 0, 0, 0, 0, 0, 0, 0] : List Nat).getD 6 0 = 0 ∧
    ([2, 0, 0, 0, 0, 0, 0, 0] : List Nat).getD 7 0 = 0 ∧
    (7 : Nat) ≠ 0 :=
  ⟨rfl, rfl, rfl, rfl, by decide⟩

/-- C6 (amended): after a successful encode with an extension present,
the cached `extraSize` of the returned header equals the actual
serialized extension length and bytes 6-7 encode that same length; when
no extension is present the output's bytes 6-7 are zero but the header
is returned unchanged, so a previously cached nonzero `extraSize` is
left in place and may disagree with the zero bytes. -/
theorem c6_cache_after_encode (s s' : SuperBlock) (out : List Nat)
    (h : s.Bytes = .ok (s', out)) :
    (∀ ex, s.Extra = some ex →
      s'.extraSize = (protoMarshal ex).length ∧
      BytesToUint16 (out.getD 6 0) (out.getD 7 0) = (protoMarshal ex).length) ∧
    (s.Extra = none → s' = s ∧ out.getD 6 0 = 0 ∧ out.getD 7 0 = 0) := by
  obtain ⟨ver, rp, ttl, rev, ex, es⟩ := s
  cases ex with
  | none =>
    simp only [SuperBlock.Bytes] at h
    rw [Except.ok.injEq, Prod.mk.injEq] at h
    obtain ⟨h1, h2⟩ := h
    subst h1; subst h2
    exact ⟨fun ex hex => by simp at hex, fun _ => ⟨rfl, rfl, rfl⟩⟩
  | some extra =>
    simp only [SuperBlock.Bytes] at h
    split at h
    · exact absurd h (by simp)
    · next hle =>
      rw [Except.ok.injEq, Prod.mk.injEq] at h
      obtain ⟨h1, h2⟩ := h
      subst h1; subst h2
      refine ⟨fun ex hex => ?_, fun hnone => by simp at hnone⟩
      simp only [Option.some.injEq] at hex
      subst hex
      have hlen : (protoMarshal extra).length % 65536 = (protoMarshal extra).length :=
        Nat.mod_eq_of_lt (by omega)
      constructor
      · simpa using hlen
      · simp only [protoMarshal] at hlen ⊢
        simp [BytesToUint16, Uint16toBytes, List.getD, hlen]
        omega

/-- C6 witness: instantiating the amended cache theorem at a header with
extension `[1]` yields a cached size of 1 matching bytes 6-7. -/
theorem c6_cache_after_encode_witness :
    (⟨2, ⟨0, 0, 0⟩, ⟨0, 0⟩, 0, some [1], 0⟩ : SuperBlock).Bytes =
      .ok (⟨2, ⟨0, 0, 0⟩, ⟨0, 0⟩, 0, some [1], 1⟩, [2, 0, 0, 0, 0, 0, 0, 1, 1]) ∧
    (⟨2, ⟨0, 0, 0⟩, ⟨0, 0⟩, 0, some [1], 1⟩ : SuperBlock).extraSize =
      (protoMarshal [1]).length ∧
    BytesToUint16 (([2, 0, 0, 0, 0, 0, 0, 1, 1] : List Nat).getD 6 0)
        (([2, 0, 0, 0, 0, 0, 0, 1, 1] : List Nat).getD 7 0) =
      (protoMarshal [1]).length :=
  ⟨rfl,
    (c6_cache_after_encode ⟨2, ⟨0, 0, 0⟩, ⟨0, 0⟩, 0, some [1], 0⟩
        ⟨2, ⟨0, 0, 0⟩, ⟨0, 0⟩, 0, some [1], 1⟩ [2, 0, 0, 0, 0, 0, 0, 1, 1]
        rfl).1 [1] rfl⟩

end SeaweedFS

namespace SeaweedFS

/-- C7: permission recovery. On a zero-length file whose stat succeeds
and whose first write fails with a permission error, the handle is
recreated and the write retried once: when recreate and retry both
succeed the header bytes are on disk, no error is returned and the
read-only flag is cleared; when the recreate fails its error is
returned and the read-only flag is unchanged; when the retry fails its
error is returned, the file is left truncated and the read-only flag is
unchanged. -/
theorem c7_permission_recovery (v : Volume) (env : Env) (e : GoError)
    (sb1 : SuperBlock) (bytes1 : List Nat)
    (hsize : v.dataFileContent = [])
    (hstat : env.statErr = none)
    (hw1 : env.write1Err = some e)
    (hperm : e.isPermission = true)
    (henc : SuperBlock.Bytes { v.SuperBlock with version := CurrentVersion } =
      .ok (sb1, bytes1)) :
    (env.createErr = none → env.write2Err = none →
      Volume.maybeWriteSuperBlock env v =
        .ok ({ v with SuperBlock := sb1, dataFileContent := bytes1, readOnly := false }, none)) ∧
    (∀ e2, env.createErr = some e2 →
      Volume.maybeWriteSuperBlock env v =
        .ok ({ v with SuperBlock := sb1 }, some e2)) ∧
    (∀ e3, env.createErr = none → env.write2Err = some e3 →
      Volume.maybeWriteSuperBlock env v =
        .ok ({ v with SuperBlock := sb1, dataFileContent := [] }, some e3)) := by
  obtain ⟨sb, ro, content⟩ := v
  obtain ⟨statErr, w1, cErr, w2⟩ := env
  simp only at hsize hstat hw1 henc
  subst hsize; subst hstat; subst hw1
  have hstable := SuperBlock.Bytes_stable _ _ _ henc
  refine ⟨?_, ?_, ?_⟩
  · intro hc hw2
    simp only at hc hw2
    subst hc; subst hw2
    simp only [Volume.maybeWriteSuperBlock, List.length_nil, if_pos rfl]
    rw [henc]
    simp only [hperm, if_pos]
    rw [hstable]
  · intro e2 hc
    simp only at hc
    subst hc
    simp only [Volume.maybeWriteSuperBlock, List.length_nil, if_pos rfl]
    rw [henc]
    simp only [hperm, if_pos]
  · intro e3 hc hw2
    simp only at hc hw2
    subst hc; subst hw2
    simp only [Volume.maybeWriteSuperBlock, List.length_nil, if_pos rfl]
    rw [henc]
    simp only [hperm, if_pos]
    rw [hstable]

/-- C7 witness: a concrete read-only volume with an empty file, a
permission-denied first write and a successful recreate-and-retry ends
with the header written, no error and the read-only flag cleared. -/
theorem c7_permission_recovery_witness :
    (⟨⟨1, ⟨0, 0, 0⟩, ⟨0, 0⟩, 0, none, 0⟩, true, []⟩ : Volume).dataFileContent =
      [] ∧
    (⟨none, some ⟨true, "perm"⟩, none, none⟩ : Env).statErr = none ∧
    (⟨none, some ⟨true, "perm"⟩, none, none⟩ : Env).write1Err =
      some ⟨true, "perm"⟩ ∧
    (⟨true, "perm"⟩ : GoError).isPermission = true ∧
    Volume.maybeWriteSuperBlock ⟨none, some ⟨true, "perm"⟩, none, none⟩
        ⟨⟨1, ⟨0, 0, 0⟩, ⟨0, 0⟩, 0, none, 0⟩, true, []⟩ =
      .ok (⟨⟨3, ⟨0, 0, 0⟩, ⟨0, 0⟩, 0, none, 0⟩, false, [3, 0, 0, 0, 0, 0, 0, 0]⟩,
        none) :=
  ⟨rfl, rfl, rfl, rfl,
    (c7_permission_recovery ⟨⟨1, ⟨0, 0, 0⟩, ⟨0, 0⟩, 0, none, 0⟩, true, []⟩
        ⟨none, some ⟨true, "perm"⟩, none, none⟩ ⟨true, "perm"⟩
        ⟨3, ⟨0, 0, 0⟩, ⟨0, 0⟩, 0, none, 0⟩ [3, 0, 0, 0, 0, 0, 0, 0]
        rfl rfl rfl rfl rfl).1 rfl rfl⟩

/-- C8: no-op on an existing file. When the stat succeeds and reports a
non-empty file, `maybeWriteSuperBlock` returns the volume completely
unchanged (same super block, same read-only flag, same file bytes) with
no error; when the stat itself fails its error is propagated and the
volume is likewise untouched. -/
theorem c8_noop_on_existing_file (v : Volume) (env : Env) :
    (env.statErr = none → v.dataFileContent ≠ [] →
      Volume.maybeWriteSuperBlock env v = .ok (v, none)) ∧
    (∀ e, env.statErr = some e →
      Volume.maybeWriteSuperBlock env v = .ok (v, some e)) := by
  obtain ⟨sb, ro, content⟩ := v
  obtain ⟨statErr, w1, cErr, w2⟩ := env
  constructor
  · intro hstat hne
    simp only at hstat
    subst hstat
    simp only [Volume.maybeWriteSuperBlock]
    rw [if_neg (by simpa using hne)]
  · intro e hstat
    simp only at hstat
    subst hstat
    rfl

/-- C8 witness: a volume whose file already holds the byte `9` is
returned unchanged with no error. -/
theorem c8_noop_on_existing_file_witness :
    (⟨none, none, none, none⟩ : Env).statErr = none ∧
    (⟨⟨1, ⟨0, 0, 0⟩, ⟨0, 0⟩, 0, none, 0⟩, true, [9]⟩ : Volume).dataFileContent ≠
      [] ∧
    Volume.maybeWriteSuperBlock ⟨none, none, none, none⟩
        ⟨⟨1, ⟨0, 0, 0⟩, ⟨0, 0⟩, 0, none, 0⟩, true, [9]⟩ =
      .ok (⟨⟨1, ⟨0, 0, 0⟩, ⟨0, 0⟩, 0, none, 0⟩, true, [9]⟩, none) :=
  ⟨rfl, by decide,
    (c8_noop_on_existing_file ⟨⟨1, ⟨0, 0, 0⟩, ⟨0, 0⟩, 0, none, 0⟩, true, [9]⟩
        ⟨none, none, none, none⟩).1 rfl (by decide)⟩

/-- C9 counterexample: the 5-byte stream `[1,0,0,0,0]` — fewer than 8
bytes — does not fail with an I/O error: the single read returns the
partial bytes without error and decode succeeds on the zero-padded
buffer, returning a header. -/
theorem c9_short_stream_decodes :
    ReadSuperBlock [1, 0, 0, 0, 0] =
      .ok ⟨1, ⟨0, 0, 0⟩, ⟨0, 0⟩, 0, none, 0⟩ ∧
    ([1, 0, 0, 0, 0] : List Nat).length < 8 :=
  ⟨rfl, by decide⟩

/-- C9 (amended): the decoder fails with the truncated-header I/O error
exactly on the empty stream; for any non-empty stream the single read
returns whatever bytes are available (zero-padding the 8-byte buffer
when fewer than 8 are present) without an I/O error, and decode
proceeds on that buffer. -/
theorem c9_io_error_iff_empty :
    ReadSuperBlock [] = .error "cannot read volume super block: EOF" ∧
    ∀ data : List Nat, data ≠ [] →
      ReadSuperBlock data ≠ .error "cannot read volume super block: EOF" := by
  constructor
  · rfl
  · intro data hne
    simp only [ReadSuperBlock]
    rw [if_neg (by simpa using hne)]
    cases h : NewReplicaPlacementFromByte
        ((data.take 8 ++ List.replicate (8 - data.length) 0).getD 1 0) with
    | error e =>
      simp only
      intro hcontra
      rw [Except.error.injEq] at hcontra
      have : e = "unknown replication type" := by
        simp only [NewReplicaPlacementFromByte] at h
        split at h
        · exact absurd h (by simp)
        · rw [Except.error.injEq] at h
          exact h.symm
      subst this
      exact absurd hcontra (by decide)
    | ok rp =>
      simp only
      split
      · simp only [protoUnmarshal]
        intro hcontra
        exact absurd hcontra (by simp)
      · intro hcontra
        exact absurd hcontra (by simp)

/-- C9 witness: the non-empty 5-byte stream `[1,0,0,0,0]` does not
produce the truncated-header I/O error. -/
theorem c9_io_error_iff_empty_witness :
    ([1, 0, 0, 0, 0] : List Nat) ≠ [] ∧
    ReadSuperBlock [1, 0, 0, 0, 0] ≠
      .error "cannot read volume super block: EOF" :=
  ⟨by decide, c9_io_error_iff_empty.2 [1, 0, 0, 0, 0] (by decide)⟩

/-- C10: whenever `maybeWriteSuperBlock` runs against a file whose stat
succeeds and reports size zero, every volume state it can return —
including every error path of the write and of the recovery — carries a
super block whose version has been overwritten with `CurrentVersion`;
the version change is never rolled back. -/
theorem c10_version_pin_persists (v : Volume) (env : Env) (r : Volume)
    (err : Option GoError)
    (hstat : env.statErr = none)
    (hsize : v.dataFileContent = [])
    (h : Volume.maybeWriteSuperBlock env v = .ok (r, err)) :
    r.SuperBlock.version = CurrentVersion := by
  obtain ⟨sb, ro, content⟩ := v
  obtain ⟨statErr, w1, cErr, w2⟩ := env
  simp only at hstat hsize
  subst hstat; subst hsize
  simp only [Volume.maybeWriteSuperBlock, List.length_nil, eq_self_iff_true,
    if_true] at h
  cases henc : SuperBlock.Bytes ⟨CurrentVersion, sb.ReplicaPlacement, sb.Ttl, sb.CompactRevision, sb.Extra, sb.extraSize⟩ with
  | error msg =>
    rw [henc] at h
    exact absurd h (by simp)
  | ok p =>
    obtain ⟨sb1, bytes1⟩ := p
    have hv1 : sb1.version = CurrentVersion :=
      SuperBlock.Bytes_version _ _ _ henc
    rw [henc] at h
    cases w1 with
    | none =>
      rw [Except.ok.injEq, Prod.mk.injEq] at h
      obtain ⟨h1, _⟩ := h
      subst h1
      exact hv1
    | some e =>
      simp only at h
      by_cases hp : e.isPermission = true
      · rw [if_pos hp] at h
        cases cErr with
        | some e2 =>
          simp only at h
          rw [Except.ok.injEq, Prod.mk.injEq] at h
          obtain ⟨h1, _⟩ := h
          subst h1
          exact hv1
        | none =>
          simp only at h
          cases henc2 : SuperBlock.Bytes sb1 with
          | error msg =>
            rw [henc2] at h
            exact absurd h (by simp)
          | ok p2 =>
            obtain ⟨sb2, bytes2⟩ := p2
            have hv2 : sb2.version = sb1.version :=
              SuperBlock.Bytes_version _ _ _ henc2
            rw [henc2] at h
            cases w2 with
            | none =>
              rw [Except.ok.injEq, Prod.mk.injEq] at h
              obtain ⟨h1, _⟩ := h
              subst h1
              exact hv2.trans hv1
            | some e3 =>
              simp only at h
              rw [Except.ok.injEq, Prod.mk.injEq] at h
              obtain ⟨h1, _⟩ := h
              subst h1
              exact hv2.trans hv1
      · rw [if_neg hp] at h
        rw [Except.ok.injEq, Prod.mk.injEq] at h
        obtain ⟨h1, _⟩ := h
        subst h1
        exact hv1

/-- C10 witness: a version-1 volume on an empty file whose first write
fails with a permission error and whose retry also fails still comes
back with its version pinned to `CurrentVersion` alongside the
propagated error. -/
theorem c10_version_pin_persists_witness :
    (⟨none, some ⟨true, "perm"⟩, none, some ⟨false, "w2"⟩⟩ : Env).statErr =
      none ∧
    (⟨⟨1, ⟨0, 0, 0⟩, ⟨0, 0⟩, 0, none, 0⟩, true, []⟩ : Volume).dataFileContent =
      [] ∧
    Volume.maybeWriteSuperBlock
        ⟨none, some ⟨true, "perm"⟩, none, some ⟨false, "w2"⟩⟩
        ⟨⟨1, ⟨0, 0, 0⟩, ⟨0, 0⟩, 0, none, 0⟩, true, []⟩ =
      .ok (⟨⟨3, ⟨0, 0, 0⟩, ⟨0, 0⟩, 0, none, 0⟩, true, []⟩,
        some ⟨false, "w2"⟩) ∧
    (⟨⟨3, ⟨0, 0, 0⟩, ⟨0, 0⟩, 0, none, 0⟩, true, []⟩ : Volume).SuperBlock.version =
      CurrentVersion :=
  ⟨rfl, rfl, rfl,
    c10_version_pin_persists ⟨⟨1, ⟨0, 0, 0⟩, ⟨0, 0⟩, 0, none, 0⟩, true, []⟩
      ⟨none, some ⟨true, "perm"⟩, none, some ⟨false, "w2"⟩⟩
      ⟨⟨3, ⟨0, 0, 0⟩, ⟨0, 0⟩, 0, none, 0⟩, true, []⟩ (some ⟨false, "w2"⟩)
      rfl rfl rfl⟩

end SeaweedFS
